import Mathlib

/-!
Shallow embedding of the checkout step-orchestration code
(`packages/composite-checkout/src/components/checkout.js` and
`packages/composite-checkout-wpcom/src/components/coupon.js`)
and proofs about it.

JavaScript strings are embedded as `List Char`; JS numbers appearing here
are integers and are embedded as `Nat`/`Int` (with `Option Int` standing
for "an integer or NaN" where `parseInt` can fail).
-/

namespace CheckoutModel

/-! ## JS string primitives used by the URL synchronizer -/

/-- The decimal digit character for `n < 10` (embedding of JS number→string
conversion, one digit). -/
def digitChar (n : Nat) : Char := Char.ofNat (48 + n)

/-- Embedding of JS number→string conversion for a nonnegative integer
(as used by the template literal \x7b`#step${ stepNumber }`\x7d):
standard decimal representation, most significant digit first. -/
def natToDigitChars (n : Nat) : List Char :=
  if h : n < 10 then [digitChar n]
  else natToDigitChars (n / 10) ++ [digitChar (n % 10)]
  decreasing_by
    exact Nat.div_lt_self (by omega) (by omega)

/-- Parse a maximal run of leading decimal digits; `none` when there is no
leading digit (the NaN case of `parseInt`). -/
def parseDecimalDigits (cs : List Char) : Option Nat :=
  let ds := cs.takeWhile Char.isDigit
  if ds.isEmpty then none
  else some (ds.foldl (fun acc c => acc * 10 + (c.toNat - 48)) 0)

/-- Embedding of JS `parseInt(s, 10)`: skip leading whitespace, optional
sign, then read leading decimal digits; `none` models NaN. -/
def parseIntJS (s : List Char) : Option Int :=
  match s.dropWhile Char.isWhitespace with
  | '-' :: rest => (parseDecimalDigits rest).map (fun n => -(n : Int))
  | '+' :: rest => (parseDecimalDigits rest).map (fun n => (n : Int))
  | rest => (parseDecimalDigits rest).map (fun n => (n : Int))

/-- Embedding of JS `String.prototype.split` with a nonempty string
separator: split on each non-overlapping occurrence, left to right. -/
def splitOnList (sep : List Char) : List Char → List (List Char)
  | [] => [[]]
  | c :: rest =>
    if h : sep ≠ [] ∧ (c :: rest).take sep.length = sep then
      [] :: splitOnList sep ((c :: rest).drop sep.length)
    else
      match splitOnList sep rest with
      | [] => [[c]]
      | chunk :: chunks => (c :: chunk) :: chunks
  termination_by l => l.length
  decreasing_by
    · have hpos : 0 < sep.length := List.length_pos.mpr h.1
      simp only [List.length_drop, List.length_cons]
      omega
    · simp only [List.length_cons]
      omega

/-- Embedding of JS `String.prototype.replace` with a nonempty string
pattern: replace the first occurrence of `target` by `repl`. -/
def replaceFirst (target repl : List Char) : List Char → List Char
  | [] => []
  | c :: rest =>
    if target ≠ [] ∧ (c :: rest).take target.length = target then
      repl ++ (c :: rest).drop target.length
    else
      c :: replaceFirst target repl rest

/-! ## The URL synchronizer (`getStepNumberFromUrl` / `saveStepNumberToUrl`) -/

/-- The literal `'#step'` used by both URL functions. -/
def stepTag : List Char := ['#', 's', 't', 'e', 'p']

/-- The browser window state visible to the checkout code: the location is
split into the part before the fragment (`base`, which contains no `'#'`
in any well-formed URL) and the fragment (`hash`, empty or starting with
`'#'`, exactly as JS `location.hash`); `history` is the session history
list (one entry per URL); `pushStateAvailable` models whether
`window.history.pushState` exists. -/
structure Window where
  base : List Char
  hash : List Char
  history : List (List Char)
  pushStateAvailable : Bool
  deriving DecidableEq

/-- The full URL, `window.location.href`. -/
def Window.href (w : Window) : List Char := w.base ++ w.hash

/-- Embedding of `window.history.pushState(null, null, newUrl)` per the
HTML history API: the location is updated to `newUrl` (the fragment being
everything from the first `'#'` on) and one new session-history entry is
added; no navigation or reload happens. -/
def pushState (url : List Char) (w : Window) : Window :=
  { base := url.takeWhile (fun c => c ≠ '#'),
    hash := url.dropWhile (fun c => c ≠ '#'),
    history := w.history ++ [url],
    pushStateAvailable := w.pushStateAvailable }

/-- Embedding of `getStepNumberFromUrl`: if the fragment starts with
`#step`, split on `'#step'` and parse the part after it (the JS code
feeds the number `1` to `parseInt` when the split yields a single part);
otherwise return 1. `none` models NaN. -/
def getStepNumberFromUrl (w : Window) : Option Int :=
  let hashValue := w.hash
  if hashValue.take stepTag.length = stepTag then
    let parts := splitOnList stepTag hashValue
    let stepNumberStr := if parts.length > 1 then parts.getD 1 [] else ['1']
    parseIntJS stepNumberStr
  else
    some 1

/-- Embedding of `saveStepNumberToUrl`: no-op when `pushState` is missing;
compute the new fragment (`#step<n>` for `n > 1`, empty otherwise); no-op
when it equals the current fragment; otherwise build the new URL by
replacing the old fragment inside `href` (or appending when there was
none) and `pushState` to it. -/
def saveStepNumberToUrl (stepNumber : Nat) (w : Window) : Window :=
  if w.pushStateAvailable = false then w
  else
    let newHash := if stepNumber > 1 then stepTag ++ natToDigitChars stepNumber else []
    if w.hash = newHash then w
    else
      let newUrl :=
        if w.hash ≠ [] then replaceFirst w.hash newHash w.href
        else w.href ++ newHash
      pushState newUrl w

/-! ## Step descriptors and the step annotator (`getAnnotatedSteps`) -/

/-- The fields of a step descriptor relevant to the orchestration logic:
its identity and whether it participates in numbering. -/
structure Step where
  id : List Char
  hasStepNumber : Bool
  deriving DecidableEq

/-- A step descriptor with the two fields added by `getAnnotatedSteps`:
`stepNumber` (`none` embeds JS `null`) and `stepIndex`. -/
structure AnnotatedStep where
  toStep : Step
  stepNumber : Option Nat
  stepIndex : Nat
  deriving DecidableEq

/-- Identity of an annotated step, forwarded from the descriptor. -/
def AnnotatedStep.id (s : AnnotatedStep) : List Char := s.toStep.id

/-- The numbering flag of an annotated step, forwarded from the descriptor. -/
def AnnotatedStep.hasStepNumber (s : AnnotatedStep) : Bool := s.toStep.hasStepNumber

/-- The `steps.map` inside `getAnnotatedSteps`: walk the list keeping the
running counter `numberedStepNumber` (incremented on each step with
`hasStepNumber`) and the current index, assigning `stepNumber` to numbered
steps and `null` to the rest, and `stepIndex` to every step. -/
def annotateFrom (numberedStepNumber : Nat) (index : Nat) : List Step → List AnnotatedStep
  | [] => []
  | step :: rest =>
    let counter := if step.hasStepNumber then numberedStepNumber + 1 else numberedStepNumber
    { toStep := step,
      stepNumber := if step.hasStepNumber then some counter else none,
      stepIndex := index } :: annotateFrom counter (index + 1) rest

/-- The annotation map started with counter 0 at index 0. -/
def annotateSteps (steps : List Step) : List AnnotatedStep := annotateFrom 0 0 steps

/-- Embedding of `getAnnotatedSteps`: annotate the list, then throw
(`Except.error`) when the result is empty. -/
def getAnnotatedSteps (steps : List Step) : Except (List Char) (List AnnotatedStep) :=
  let annotatedSteps := annotateSteps steps
  if annotatedSteps.length < 1 then Except.error ('N' :: 'o' :: ' ' :: "steps found".toList)
  else Except.ok annotatedSteps

/-! ## Completion tracking -/

/-- The completion status map (a JS object keyed by step id), embedded as
an association list with at most one entry per id. -/
abbrev CompletionMap := List (List Char × Bool)

/-- Embedding of `stepCompleteStatus[ step.id ] ?? false`: an absent key
reads as `false`. -/
def lookupCompletion (m : CompletionMap) (id : List Char) : Bool :=
  ((m.find? (fun p => p.1 = id)).map (fun p => p.2)).getD false

/-- Modelled from the spec: the Completion Tracker's update
(`setStepComplete`, from the `active-step` module that is not among the
given sources) records a boolean for a step id, overwriting any previous
entry — "holds a mapping of step identity → complete/incomplete boolean;
updated by outcome of per-step completion checks". -/
def setStepComplete (id : List Char) (b : Bool) (m : CompletionMap) : CompletionMap :=
  (id, b) :: (List.filter (fun p => p.1 ≠ id) m)

/-- Embedding of `areAllPreviousStepsComplete`: the `reduce` over the
steps with seed `false`; JS truthiness of `step.stepNumber` (null and 0
are falsy) is made explicit. -/
def areAllPreviousStepsComplete (steps : List AnnotatedStep) (stepNumber : Nat)
    (stepCompleteStatus : CompletionMap) : Bool :=
  steps.foldl
    (fun allComplete step =>
      match step.stepNumber with
      | some k =>
        if k ≠ 0 ∧ k < stepNumber then
          if allComplete = false then false
          else lookupCompletion stepCompleteStatus step.id
        else allComplete
      | none => allComplete)
    false

/-! ## Next-step resolution and the complete-icon computation -/

/-- Embedding of the `annotatedSteps.find` computing `nextStep`: the JS
`find` callback receives the element and its position, and tests
`index > activeStep.stepIndex && step.hasStepNumber`. -/
def nextStepOf (annotatedSteps : List AnnotatedStep) (activeStep : AnnotatedStep) :
    Option AnnotatedStep :=
  (annotatedSteps.enum.find?
    (fun p => decide (activeStep.stepIndex < p.1) && p.2.hasStepNumber)).map (fun p => p.2)

/-- Embedding of `isThereAnotherNumberedStep = !! nextStep && nextStep.hasStepNumber`. -/
def isThereAnotherNumberedStep (annotatedSteps : List AnnotatedStep)
    (activeStep : AnnotatedStep) : Bool :=
  match nextStepOf annotatedSteps activeStep with
  | some s => s.hasStepNumber
  | none => false

/-- Embedding of `shouldShowStepCompleteIcon = ! stepNumber ||
activeStep.stepNumber > stepNumber`; the `stepNumber` prop is
`step.stepNumber || null` (`none`, or `some k` with `k ≠ 0`), and the
active step always carries a number (`activeStepNumber`), since it is
found by matching the store's integer step number. JS truthiness of the
prop is made explicit. -/
def shouldShowStepCompleteIcon (activeStepNumber : Nat) (stepNumber : Option Nat) : Bool :=
  match stepNumber with
  | none => true
  | some k => if k = 0 then true else decide (activeStepNumber > k)

/-! ## The step store (`useRegisterCheckoutStore`) -/

/-- The store state: `reducer( state = { stepNumber: 1 }, ... )`. -/
structure StoreState where
  stepNumber : Nat
  deriving DecidableEq

/-- The registered store's actions: `STEP_NUMBER_SET` (consumed by the
reducer) and `STEP_NUMBER_CHANGE_EVENT` (consumed by a control). -/
inductive StoreAction where
  | stepNumberSet (payload : Nat)
  | stepNumberChangeEvent (payload : Nat)
  deriving DecidableEq

/-- Embedding of the registered `reducer`: `STEP_NUMBER_SET` commits the
payload as the new step number; every other action returns the state
unchanged. -/
def reducer (state : StoreState) (action : StoreAction) : StoreState :=
  match action with
  | .stepNumberSet payload => { state with stepNumber := payload }
  | _ => state

/-- Embedding of the `getStepNumber` selector. -/
def getStepNumber (state : StoreState) : Nat := state.stepNumber

/-- A generator action: the list of actions it yields to the controls,
followed by the action it returns to the reducer. -/
structure GeneratorAction where
  yields : List StoreAction
  ret : StoreAction

/-- Embedding of the `changeStep` generator: yield
`\x7b type: 'STEP_NUMBER_CHANGE_EVENT', payload \x7d`, then return
`\x7b type: 'STEP_NUMBER_SET', payload \x7d`. -/
def changeStep (payload : Nat) : GeneratorAction :=
  { yields := [.stepNumberChangeEvent payload], ret := .stepNumberSet payload }

/-- Observable effects of a dispatch, in the order they are performed. -/
inductive StoreEffect where
  | notified (type : List Char) (payload : Nat)
  | urlWritten (payload : Nat)
  | committed (payload : Nat)
  deriving DecidableEq

/-- Embedding of the registered `controls`: the handler for
`STEP_NUMBER_CHANGE_EVENT` calls `onEvent( action )` and then
`saveStepNumberToUrl( action.payload )`; no other action has a control. -/
def runControl (action : StoreAction) (w : Window) : List StoreEffect × Window :=
  match action with
  | .stepNumberChangeEvent payload =>
    ([.notified "STEP_NUMBER_CHANGE_EVENT".toList payload, .urlWritten payload],
      saveStepNumberToUrl payload w)
  | _ => ([], w)

/-- Run the controls over a list of yielded actions, accumulating effects
in order and threading the window. -/
def runControls (actions : List StoreAction) (w : Window) : List StoreEffect × Window :=
  match actions with
  | [] => ([], w)
  | a :: rest =>
    let r := runControl a w
    let r2 := runControls rest r.2
    (r.1 ++ r2.1, r2.2)

/-- Modelled from the spec: dispatching a generator action on the
registry store ("dispatchable actions (optionally multi-phase: emit side
effect, then commit)", "state updates are applied atomically and observed
synchronously by readers after dispatch completes") — each yielded action
is handed to its control, then the returned action is committed through
the reducer; the trace records the commit last. -/
def dispatch (g : GeneratorAction) (s : StoreState) (w : Window) :
    List StoreEffect × StoreState × Window :=
  let yielded := runControls g.yields w
  let committed := reducer s g.ret
  (yielded.1 ++ [.committed committed.stepNumber], committed, yielded.2)

/-- One call of the store's `changeStep` action through dispatch. -/
def dispatchChangeStep (payload : Nat) (s : StoreState) (w : Window) :
    List StoreEffect × StoreState × Window :=
  dispatch (changeStep payload) s w

/-! ## The completion gate (`onClick` / `evaluateContinue`) -/

/-- Modelled from the spec: the form-status collaborator exposes
`loading | ready | validating` and setters for `ready`/`validating`. -/
inductive FormStatus where
  | loading
  | ready
  | validating
  deriving DecidableEq

/-- The state touched by the completion gate: the form status, the
completion map, the step store's state and the window (reached through
`goToNextStep` → `changeStep`). -/
structure PageState where
  formStatus : FormStatus
  stepCompleteStatus : CompletionMap
  store : StoreState
  window : Window
  deriving DecidableEq

/-- The result of `activeStep.isCompleteCallback?.( ... ) ?? true`:
either a plain boolean, or a promise (`deferred b` models a promise that
will eventually settle with the boolean `b`). -/
inductive CompletionResult where
  | immediate (b : Bool)
  | deferred (b : Bool)

/-- Embedding of `goToNextStep = () => changeStep( nextStep.stepNumber )`:
dispatch `changeStep` with the next step's number, updating the store
state and the window. -/
def goToNextStep (nextStepNumber : Nat) (st : PageState) : PageState :=
  let r := dispatchChangeStep nextStepNumber st.store st.window
  { st with store := r.2.1, window := r.2.2 }

/-- Embedding of `evaluateContinue`: `setFormReady()`; on `true`, record
completion and `goToNextStep()`; otherwise record non-completion and stay. -/
def evaluateContinue (stepId : List Char) (nextStepNumber : Nat) (result : Bool)
    (st : PageState) : PageState :=
  let st1 := { st with formStatus := FormStatus.ready }
  if result = true then
    let st2 := { st1 with stepCompleteStatus := setStepComplete stepId true st1.stepCompleteStatus }
    goToNextStep nextStepNumber st2
  else
    { st1 with stepCompleteStatus := setStepComplete stepId false st1.stepCompleteStatus }

/-- Embedding of the synchronous part of `onClick`: with a promise result
(`isCompleteResult.then` truthy) call `setFormValidating()` and register
`evaluateContinue` on the promise; with a plain boolean run
`evaluateContinue` at once. -/
def onClick (stepId : List Char) (nextStepNumber : Nat)
    (isCompleteResult : CompletionResult) (st : PageState) : PageState :=
  match isCompleteResult with
  | .deferred _ => { st with formStatus := FormStatus.validating }
  | .immediate b => evaluateContinue stepId nextStepNumber b st

/-- The settlement of the pending promise: the registered
`evaluateContinue` runs with the settled boolean. -/
def settleDeferred (stepId : List Char) (nextStepNumber : Nat) (settled : Bool)
    (st : PageState) : PageState :=
  evaluateContinue stepId nextStepNumber settled st

/-! ## The coupon form (`coupon.js`: `handleFormSubmit` / `isCouponValid`) -/

/-- A character of the class `[a-zA-Z0-9_-]`. -/
def isCouponChar (c : Char) : Bool :=
  (('a' ≤ c ∧ c ≤ 'z') ∨ ('A' ≤ c ∧ c ≤ 'Z') ∨ ('0' ≤ c ∧ c ≤ '9') ∨ c = '_' ∨ c = '-')

/-- Embedding of `isCouponValid`: truthiness of
`coupon.match( /^[a-zA-Z0-9_-]+$/ )` — the whole string is a nonempty run
of characters from the class. -/
def isCouponValid (coupon : List Char) : Bool :=
  decide (coupon ≠ []) && coupon.all isCouponChar

/-- The analytics events the coupon form emits through `onEvent`. -/
inductive CouponEvent where
  | addCoupon (coupon : List Char)
  | addCouponError (errorType : List Char)
  deriving DecidableEq

/-- The observable outcome of one `handleFormSubmit` call: whether the
default submit was prevented, the events emitted through `onEvent` in
order, the argument `submitCoupon` was invoked with (or `none`), whether
`setIsCouponApplied(true)` ran, whether the `couponAdded` callback ran,
and whether `setHasCouponError(true)` ran. -/
structure CouponSubmitOutcome where
  prevented : Bool
  events : List CouponEvent
  submitCouponCalledWith : Option (List Char)
  isCouponAppliedSet : Bool
  couponAddedCalled : Bool
  hasCouponErrorSet : Bool
  deriving DecidableEq

/-- Embedding of `handleFormSubmit`: `event.preventDefault()`; when the
field value passes `isCouponValid`, set the applied flag, emit
`a8c_checkout_add_coupon` with the coupon as payload, call
`submitCoupon( couponFieldValue )` and the optional `couponAdded`;
otherwise emit `a8c_checkout_add_coupon_error` (payload
`\x7b type: 'Invalid code' \x7d`) and set the error flag. -/
def handleFormSubmit (couponFieldValue : List Char) (couponAddedProvided : Bool) :
    CouponSubmitOutcome :=
  if isCouponValid couponFieldValue then
    { prevented := true,
      events := [.addCoupon couponFieldValue],
      submitCouponCalledWith := some couponFieldValue,
      isCouponAppliedSet := true,
      couponAddedCalled := couponAddedProvided,
      hasCouponErrorSet := false }
  else
    { prevented := true,
      events := [.addCouponError "Invalid code".toList],
      submitCouponCalledWith := none,
      isCouponAppliedSet := false,
      couponAddedCalled := false,
      hasCouponErrorSet := true }

/-! ## Concrete example data -/

/-- The three-step example from the specification: A numbered, B
non-numbered, C numbered. -/
def stepsABC : List Step :=
  [{ id := "A".toList, hasStepNumber := true },
   { id := "B".toList, hasStepNumber := false },
   { id := "C".toList, hasStepNumber := true }]

/-- The annotated step A: number 1, index 0. -/
def activeA : AnnotatedStep :=
  { toStep := { id := "A".toList, hasStepNumber := true }, stepNumber := some 1, stepIndex := 0 }

/-- The annotated step C: number 2, index 2. -/
def annotatedC : AnnotatedStep :=
  { toStep := { id := "C".toList, hasStepNumber := true }, stepNumber := some 2, stepIndex := 2 }

/-- A window with pushState available, no fragment and one history entry. -/
def exampleWindow : Window :=
  { base := "https://example.com/checkout".toList,
    hash := [],
    history := ["https://example.com/checkout".toList],
    pushStateAvailable := true }

/-- A window whose history API lacks `pushState`. -/
def noPushStateWindow : Window :=
  { base := "https://example.com/checkout".toList,
    hash := ['#', 'x'],
    history := ["https://example.com/checkout#x".toList],
    pushStateAvailable := false }

/-- A page state on step 1 with a ready form and nothing tracked yet. -/
def examplePage : PageState :=
  { formStatus := FormStatus.ready,
    stepCompleteStatus := [],
    store := { stepNumber := 1 },
    window := exampleWindow }

/-! ## Helper lemmas -/

/-- A left fold whose step function maps the `false` accumulator to
`false` stays at `false`. -/
theorem foldl_false {α : Type} (f : Bool → α → Bool) (hf : ∀ a, f false a = false) :
    ∀ l : List α, l.foldl f false = false := by
  intro l
  induction l with
  | nil => rfl
  | cons a t ih => simpa [List.foldl, hf a] using ih

/-- The step function of `areAllPreviousStepsComplete` maps the `false`
accumulator to `false` on every step. -/
theorem areAllPreviousStepsComplete_step_false (stepNumber : Nat) (m : CompletionMap)
    (s : AnnotatedStep) :
    (fun allComplete step =>
      match AnnotatedStep.stepNumber step with
      | some k =>
        if k ≠ 0 ∧ k < stepNumber then
          if allComplete = false then false
          else lookupCompletion m step.id
        else allComplete
      | none => allComplete) false s = false := by
  cases h : s.stepNumber with
  | none => simp [h]
  | some k => by_cases hk : k ≠ 0 ∧ k < stepNumber <;> simp [h, hk]

/-- The function `areAllPreviousStepsComplete` is constantly `false`: the reduce is
seeded with `false` and its first branch returns `false` whenever the
accumulator is `false`, so the accumulator can never leave `false`. -/
theorem areAllPreviousStepsComplete_const_false (steps : List AnnotatedStep)
    (stepNumber : Nat) (m : CompletionMap) :
    areAllPreviousStepsComplete steps stepNumber m = false := by
  unfold areAllPreviousStepsComplete
  exact foldl_false _ (areAllPreviousStepsComplete_step_false stepNumber m) steps

/-- Looking up an id right after `setStepComplete` on that id yields the
recorded boolean. -/
theorem lookupCompletion_setStepComplete (id : List Char) (b : Bool) (m : CompletionMap) :
    lookupCompletion (setStepComplete id b m) id = b := by
  simp [lookupCompletion, setStepComplete, List.find?]

/-- The annotation map preserves the length of the step list. -/
theorem annotateFrom_length (c i : Nat) (steps : List Step) :
    (annotateFrom c i steps).length = steps.length := by
  induction steps generalizing c i with
  | nil => rfl
  | cons s t ih => simp [annotateFrom, ih]

/-- Element `i` of the annotation of `steps` started at counter `c` and
index `idx`: the original descriptor, step index `idx + i`, and — when
numbered — step number `c` plus the count of numbered steps among the
first `i + 1` descriptors. -/
theorem annotateFrom_getElem? (c idx : Nat) (steps : List Step) (i : Nat) (s : Step)
    (h : steps[i]? = some s) :
    (annotateFrom c idx steps)[i]? = some
      { toStep := s,
        stepNumber := if s.hasStepNumber then
            some (c + (steps.take (i + 1)).countP (fun t => t.hasStepNumber))
          else none,
        stepIndex := idx + i } := by
  induction steps generalizing c idx i with
  | nil => simp at h
  | cons a t ih =>
    cases i with
    | zero =>
      simp only [List.getElem?_cons_zero, Option.some.injEq] at h
      subst h
      by_cases ha : a.hasStepNumber <;>
        simp [annotateFrom, List.countP_cons, ha]
    | succ i =>
      simp only [List.getElem?_cons_succ] at h
      simp only [annotateFrom, List.getElem?_cons_succ]
      rw [ih (if a.hasStepNumber then c + 1 else c) (idx + 1) i h]
      have hidx : idx + 1 + i = idx + (i + 1) := by omega
      by_cases ha : a.hasStepNumber <;> by_cases hs : s.hasStepNumber <;>
        · simp [ha, hs, List.take_succ_cons, List.countP_cons, hidx]
          try omega

/-- The step index recorded at position `i` of an annotation started at
index `idx` is `idx + i`. -/
theorem annotateFrom_stepIndex (c idx : Nat) (steps : List Step) (i : Nat) (a : AnnotatedStep)
    (h : (annotateFrom c idx steps)[i]? = some a) : a.stepIndex = idx + i := by
  induction steps generalizing c idx i with
  | nil => simp [annotateFrom] at h
  | cons s t ih =>
    cases i with
    | zero =>
      simp only [annotateFrom, List.getElem?_cons_zero, Option.some.injEq] at h
      subst h
      rfl
    | succ i =>
      simp only [annotateFrom, List.getElem?_cons_succ] at h
      have := ih _ (idx + 1) i h
      omega

/-- The numbered steps of an annotation started at counter `c` receive
exactly the contiguous numbers `c + 1, c + 2, ...`, one per numbered
descriptor, in list order. -/
theorem annotateFrom_filterMap (c idx : Nat) (steps : List Step) :
    (annotateFrom c idx steps).filterMap (fun s => s.stepNumber) =
      List.range' (c + 1) (steps.countP (fun s => s.hasStepNumber)) := by
  induction steps generalizing c idx with
  | nil => rfl
  | cons a t ih =>
    by_cases ha : a.hasStepNumber <;>
      simp [annotateFrom, ha, List.countP_cons, ih, List.range'_succ]

/-- A `find?` over an enumeration whose predicate looks at the position
equals a `find?` over the plain list whose predicate looks at
`stepIndex`, provided `stepIndex` records the position. -/
theorem enumFrom_find?_stepIndex (l : List AnnotatedStep) (k : Nat)
    (P : Nat → Bool) (Q : AnnotatedStep → Bool)
    (hidx : ∀ (i : Nat) (a : AnnotatedStep), l[i]? = some a → a.stepIndex = k + i) :
    ((l.enumFrom k).find? (fun p => P p.1 && Q p.2)).map (fun p => p.2) =
      l.find? (fun a => P a.stepIndex && Q a) := by
  induction l generalizing k with
  | nil => rfl
  | cons a t ih =>
    have ha : a.stepIndex = k := by simpa using hidx 0 a (by simp)
    show (((k, a) :: t.enumFrom (k + 1)).find? (fun p => P p.1 && Q p.2)).map (fun p => p.2) = _
    by_cases hpa : (P k && Q a) = true
    · rw [List.find?_cons_of_pos, List.find?_cons_of_pos]
      · rfl
      · simpa [ha] using hpa
      · exact hpa
    · rw [List.find?_cons_of_neg, List.find?_cons_of_neg]
      · exact ih (k + 1) (fun i b hb => by
          have := hidx (i + 1) b (by simpa using hb)
          omega)
      · simpa [ha] using hpa
      · simpa using hpa

/-- If `find?` finds an element, that element satisfies the predicate;
packaged for the `isThereAnotherNumberedStep` computation. -/
theorem isThereAnotherNumberedStep_eq_isSome (l : List AnnotatedStep)
    (active : AnnotatedStep)
    (h : nextStepOf l active =
      l.find? (fun s => decide (active.stepIndex < s.stepIndex) && s.hasStepNumber)) :
    isThereAnotherNumberedStep l active =
      (l.find? (fun s => decide (active.stepIndex < s.stepIndex) && s.hasStepNumber)).isSome := by
  unfold isThereAnotherNumberedStep
  rw [h]
  cases hf : l.find? (fun s => decide (active.stepIndex < s.stepIndex) && s.hasStepNumber) with
  | none => rfl
  | some s =>
    have := List.find?_some hf
    simp only [Option.isSome_some]
    exact (Bool.and_eq_true_iff.mp this).2

/-- Properties of a single decimal digit character: it is a digit, not
whitespace, and none of `'-'`, `'+'`, `'#'`. -/
theorem digitChar_props (k : Nat) (h : k < 10) :
    (digitChar k).isDigit = true ∧ (digitChar k).isWhitespace = false ∧
    digitChar k ≠ '-' ∧ digitChar k ≠ '+' ∧ digitChar k ∉ stepTag := by
  interval_cases k <;> exact ⟨rfl, rfl, by decide, by decide, by decide⟩

/-- Every character of a decimal representation is a digit character. -/
theorem natToDigitChars_mem (n : Nat) :
    ∀ c ∈ natToDigitChars n, ∃ k, k < 10 ∧ c = digitChar k := by
  induction n using Nat.strong_induction_on with
  | _ n ih =>
    intro c hc
    rw [natToDigitChars] at hc
    by_cases h : n < 10
    · simp only [h, dif_pos, List.mem_singleton] at hc
      exact ⟨n, h, hc⟩
    · simp only [h, dif_neg, not_false_iff, List.mem_append, List.mem_singleton] at hc
      rcases hc with hc | hc
      · exact ih (n / 10) (Nat.div_lt_self (by omega) (by omega)) c hc
      · exact ⟨n % 10, Nat.mod_lt n (by omega), hc⟩

/-- A decimal representation is never empty. -/
theorem natToDigitChars_ne_nil (n : Nat) : natToDigitChars n ≠ [] := by
  rw [natToDigitChars]
  by_cases h : n < 10 <;> simp [h]

/-- Taking while a test holds, on a list all of whose elements pass it, is the whole
list. -/
theorem takeWhile_eq_self_of_all {α : Type} (p : α → Bool) (l : List α)
    (h : ∀ c ∈ l, p c = true) : l.takeWhile p = l := by
  induction l with
  | nil => rfl
  | cons a t ih =>
    rw [List.takeWhile_cons, h a (by simp)]
    simp [ih (fun c hc => h c (by simp [hc]))]

/-- The digit-accumulating fold of `parseDecimalDigits`, over a decimal
representation, with an arbitrary accumulator. -/
theorem natToDigitChars_foldl (n : Nat) :
    ∀ a : Nat, (natToDigitChars n).foldl (fun acc c => acc * 10 + (c.toNat - 48)) a =
      a * 10 ^ (natToDigitChars n).length + n := by
  induction n using Nat.strong_induction_on with
  | _ n ih =>
    intro a
    rw [natToDigitChars]
    by_cases h : n < 10
    · have htn : (digitChar n).toNat = 48 + n := by interval_cases n <;> rfl
      simp [h, List.foldl, htn]
    · have hlt : n / 10 < n := Nat.div_lt_self (by omega) (by omega)
      have hmod : (digitChar (n % 10)).toNat = 48 + n % 10 := by
        have : n % 10 < 10 := Nat.mod_lt n (by omega)
        interval_cases hx : (n % 10) <;> simp [hx] <;> rfl
      simp only [h, dif_neg, not_false_iff, List.foldl_append, List.foldl_cons,
        List.foldl_nil, List.length_append, List.length_cons, List.length_nil]
      rw [ih (n / 10) hlt a, hmod]
      have hdm : n % 10 + 10 * (n / 10) = n := Nat.mod_add_div n 10
      have hpow : 10 ^ ((natToDigitChars (n / 10)).length + (0 + 1)) =
          10 ^ (natToDigitChars (n / 10)).length * 10 := by
        simp [pow_succ]
      rw [hpow]
      generalize (10 : Nat) ^ (natToDigitChars (n / 10)).length = B
      have : 48 + n % 10 - 48 = n % 10 := by omega
      rw [this]
      ring_nf
      omega

/-- Parsing digits inverts the decimal representation. -/
theorem parseDecimalDigits_natToDigitChars (n : Nat) :
    parseDecimalDigits (natToDigitChars n) = some n := by
  unfold parseDecimalDigits
  have hall : (natToDigitChars n).takeWhile Char.isDigit = natToDigitChars n := by
    apply takeWhile_eq_self_of_all
    intro c hc
    rcases natToDigitChars_mem n c hc with ⟨k, hk, rfl⟩
    exact (digitChar_props k hk).1
  rw [hall]
  have hne : (natToDigitChars n).isEmpty = false := by
    cases hl : natToDigitChars n with
    | nil => exact absurd hl (natToDigitChars_ne_nil n)
    | cons a t => rfl
  simp only [hne, if_false, Bool.false_eq_true]
  rw [natToDigitChars_foldl n 0]
  simp

/-- The parser embedding `parseIntJS` inverts the decimal representation: no whitespace is
skipped and no sign is read, since the first character is a digit. -/
theorem parseIntJS_natToDigitChars (n : Nat) :
    parseIntJS (natToDigitChars n) = some (n : Int) := by
  obtain ⟨d, ds, hl⟩ : ∃ d ds, natToDigitChars n = d :: ds := by
    cases hl : natToDigitChars n with
    | nil => exact absurd hl (natToDigitChars_ne_nil n)
    | cons a t => exact ⟨a, t, rfl⟩
  obtain ⟨k, hk, hd⟩ := natToDigitChars_mem n d (by rw [hl]; simp)
  obtain ⟨-, hws, hminus, hplus, -⟩ := digitChar_props k hk
  have hdrop : (natToDigitChars n).dropWhile Char.isWhitespace = natToDigitChars n := by
    rw [hl, List.dropWhile_cons, hd, hws]
    simp
  unfold parseIntJS
  rw [hdrop, hl, hd]
  have hrw : (match (digitChar k :: ds : List Char) with
      | '-' :: rest => (parseDecimalDigits rest).map (fun n => -(n : Int))
      | '+' :: rest => (parseDecimalDigits rest).map (fun n => (n : Int))
      | rest => (parseDecimalDigits rest).map (fun n => (n : Int))) =
      (parseDecimalDigits (digitChar k :: ds)).map (fun n => (n : Int)) := by
    split
    · rename_i heq
      rw [List.cons.injEq] at heq
      exact absurd heq.1 hminus
    · rename_i heq
      rw [List.cons.injEq] at heq
      exact absurd heq.1 hplus
    · rfl
  rw [hrw, ← hd, ← hl, parseDecimalDigits_natToDigitChars n]
  rfl

/-- Splitting a string that starts with the (nonempty) separator removes
that occurrence: an empty first part, then the split of the rest. -/
theorem splitOnList_append_sep (sep s : List Char) (hsep : sep ≠ []) :
    splitOnList sep (sep ++ s) = [] :: splitOnList sep s := by
  rcases List.exists_cons_of_ne_nil hsep with ⟨c, cs, rfl⟩
  have hcond : (c :: cs : List Char) ≠ [] ∧
      ((c :: cs) ++ s).take (c :: cs).length = c :: cs := by
    exact ⟨by simp, List.take_left (c :: cs) s⟩
  rw [show ((c :: cs) ++ s : List Char) = c :: (cs ++ s) from rfl]
  rw [splitOnList]
  simp only [List.length_cons]
  rw [dif_pos (by simp [hcond.2])]
  congr 1
  have hdrop : ((c :: (cs ++ s)).drop (c :: cs).length) = s := List.drop_left (c :: cs) s
  simp only [List.length_cons] at hdrop
  rw [hdrop]

/-- Splitting a string none of whose characters occurs in the separator
yields the string whole. -/
theorem splitOnList_eq_single (sep s : List Char) (h : ∀ c ∈ s, c ∉ sep) :
    splitOnList sep s = [s] := by
  induction s with
  | nil => rw [splitOnList]
  | cons c rest ih =>
    rw [splitOnList]
    have hcond : ¬ (sep ≠ [] ∧ (c :: rest).take sep.length = sep) := by
      rintro ⟨hne, htake⟩
      rcases List.exists_cons_of_ne_nil hne with ⟨x, xs, rfl⟩
      have hc : c = x := by
        simpa [List.take_cons] using congrArg (fun l => l.headI) htake
      exact h c (by simp) (by simp [hc])
    rw [dif_neg hcond, ih (fun a ha => h a (by simp [ha]))]

/-- Replacing the fragment `'#' :: t` inside `base ++ '#' :: t` when the
base contains no `'#'`: the first occurrence is exactly the fragment. -/
theorem replaceFirst_fragment (base t repl : List Char) (hb : '#' ∉ base) :
    replaceFirst ('#' :: t) repl (base ++ '#' :: t) = base ++ repl := by
  induction base with
  | nil =>
    show replaceFirst ('#' :: t) repl ('#' :: t) = repl
    rw [replaceFirst]
    rw [if_pos ⟨by simp, by simp⟩]
    simp
  | cons c bs ih =>
    have hc : c ≠ '#' := fun hcc => hb (by simp [hcc])
    show replaceFirst ('#' :: t) repl (c :: (bs ++ '#' :: t)) = c :: (bs ++ repl)
    rw [replaceFirst]
    have hcond : ¬ (('#' :: t : List Char) ≠ [] ∧
        (c :: (bs ++ '#' :: t)).take ('#' :: t).length = '#' :: t) := by
      rintro ⟨-, htake⟩
      have : c = '#' := by
        simpa [List.take_cons] using congrArg (fun l => l.headI) htake
      exact hc this
    rw [if_neg hcond, ih (fun hmem => hb (by simp [hmem]))]

/-- Taking and dropping up to the first hash character splits a URL whose
pre-fragment part contains no `'#'` exactly at the fragment. -/
theorem takeDropWhile_fragment (base rest : List Char) (hb : '#' ∉ base) :
    (base ++ '#' :: rest).takeWhile (fun c => c ≠ '#') = base ∧
    (base ++ '#' :: rest).dropWhile (fun c => c ≠ '#') = '#' :: rest := by
  induction base with
  | nil => constructor <;> simp [List.takeWhile_cons, List.dropWhile_cons]
  | cons c bs ih =>
    have hc : c ≠ '#' := fun hcc => hb (by simp [hcc])
    have := ih (fun hmem => hb (by simp [hmem]))
    constructor
    · show ((c :: (bs ++ '#' :: rest)).takeWhile (fun c => c ≠ '#')) = c :: bs
      rw [List.takeWhile_cons]
      simp only [hc, decide_not]
      simpa [hc] using this.1
    · show ((c :: (bs ++ '#' :: rest)).dropWhile (fun c => c ≠ '#')) = '#' :: rest
      rw [List.dropWhile_cons]
      simpa [hc] using this.2

/-- All-`false` test characters: `takeWhile`/`dropWhile` on a list with
no `'#'` at all. -/
theorem takeDropWhile_no_fragment (base : List Char) (hb : '#' ∉ base) :
    base.takeWhile (fun c => c ≠ '#') = base ∧
    base.dropWhile (fun c => c ≠ '#') = [] := by
  induction base with
  | nil => exact ⟨rfl, rfl⟩
  | cons c bs ih =>
    have hc : c ≠ '#' := fun hcc => hb (by simp [hcc])
    have := ih (fun hmem => hb (by simp [hmem]))
    constructor
    · rw [List.takeWhile_cons]
      simpa [hc] using this.1
    · rw [List.dropWhile_cons]
      simpa [hc] using this.2

/-- Reading the step number from a window whose fragment is
`#step<digits of n>` yields `n`. -/
theorem getStepNumberFromUrl_stepHash (w : Window) (n : Nat)
    (hw : w.hash = stepTag ++ natToDigitChars n) :
    getStepNumberFromUrl w = some (n : Int) := by
  have hparts : splitOnList stepTag (stepTag ++ natToDigitChars n) =
      [[], natToDigitChars n] := by
    rw [splitOnList_append_sep _ _ (by decide)]
    rw [splitOnList_eq_single]
    intro c hc
    rcases natToDigitChars_mem n c hc with ⟨k, hk, rfl⟩
    exact (digitChar_props k hk).2.2.2.2
  simp only [getStepNumberFromUrl, hw]
  rw [if_pos (List.take_left stepTag (natToDigitChars n)), hparts]
  simpa using parseIntJS_natToDigitChars n

/-- Reading the step number from a window with no recognized fragment
yields 1: the empty fragment case. -/
theorem getStepNumberFromUrl_empty (w : Window) (hw : w.hash = []) :
    getStepNumberFromUrl w = some 1 := by
  simp only [getStepNumberFromUrl, hw]
  rw [if_neg (by decide)]

/-- Reading back after `pushState` to `base ++ #step<digits> `: the
browser re-splits the URL at the `'#'`, and the fragment parses to `n`. -/
theorem getStepNumberFromUrl_pushState_stepHash (w : Window) (base : List Char)
    (hb : '#' ∉ base) (n : Nat) :
    getStepNumberFromUrl (pushState (base ++ (stepTag ++ natToDigitChars n)) w) =
      some (n : Int) := by
  apply getStepNumberFromUrl_stepHash _ n
  show (base ++ (stepTag ++ natToDigitChars n)).dropWhile (fun c => c ≠ '#') = _
  have hsplit : base ++ (stepTag ++ natToDigitChars n) =
      base ++ '#' :: (('s' :: 't' :: 'e' :: 'p' :: []) ++ natToDigitChars n) := by
    simp [stepTag]
  rw [hsplit, (takeDropWhile_fragment base _ hb).2]
  simp [stepTag]

/-! ## Claim theorems -/

/-- Claim C1 (code bug): `areAllPreviousStepsComplete` is supposed to be
true iff every numbered step before the target has a true completion
entry, and vacuously true for target 1; the code returns `false` on both
of these inputs — indeed on every input — because the reduce is seeded
with `false` and the first branch propagates it. -/
theorem c1_areAllPreviousStepsComplete_bug :
    areAllPreviousStepsComplete (annotateSteps stepsABC) 2 [("A".toList, true)] = false ∧
    areAllPreviousStepsComplete (annotateSteps stepsABC) 1 [] = false ∧
    ∀ (steps : List AnnotatedStep) (n : Nat) (m : CompletionMap),
      areAllPreviousStepsComplete steps n m = false :=
  ⟨areAllPreviousStepsComplete_const_false _ _ _,
   areAllPreviousStepsComplete_const_false _ _ _,
   fun steps n m => areAllPreviousStepsComplete_const_false steps n m⟩

/-- Claim C2 (confirmed): on a non-empty step list `getAnnotatedSteps`
returns (does not throw) the annotated list, which has the same length;
position `i` holds the original descriptor with `stepIndex = i` and, when
numbered, the count of numbered steps among the first `i + 1` as its
`stepNumber` (`null` otherwise); and the step numbers of the numbered
steps, read in list order, are exactly `1, ..., m` for `m` the number of
numbered steps. -/
theorem c2_getAnnotatedSteps_spec (steps : List Step) (h : steps ≠ []) :
    getAnnotatedSteps steps = Except.ok (annotateSteps steps) ∧
    (annotateSteps steps).length = steps.length ∧
    (∀ (i : Nat) (s : Step), steps[i]? = some s →
      (annotateSteps steps)[i]? = some
        { toStep := s,
          stepNumber := if s.hasStepNumber then
              some ((steps.take (i + 1)).countP (fun t => t.hasStepNumber))
            else none,
          stepIndex := i }) ∧
    (annotateSteps steps).filterMap (fun s => s.stepNumber) =
      List.range' 1 (steps.countP (fun s => s.hasStepNumber)) := by
  refine ⟨?_, annotateFrom_length 0 0 steps, ?_, annotateFrom_filterMap 0 0 steps⟩
  · have hlen : (annotateSteps steps).length = steps.length := annotateFrom_length 0 0 steps
    have : ¬ (annotateSteps steps).length < 1 := by
      rcases List.exists_cons_of_ne_nil h with ⟨a, t, rfl⟩
      simp [hlen]
    simp [getAnnotatedSteps, this]
  · intro i s hs
    simpa using annotateFrom_getElem? 0 0 steps i s hs

/-- Witness for C2 on the three-step example list. -/
theorem c2_witness :
    getAnnotatedSteps stepsABC = Except.ok (annotateSteps stepsABC) ∧
    (annotateSteps stepsABC).length = stepsABC.length ∧
    (annotateSteps stepsABC).filterMap (fun s => s.stepNumber) =
      List.range' 1 (stepsABC.countP (fun s => s.hasStepNumber)) :=
  have h := c2_getAnnotatedSteps_spec stepsABC (by decide)
  ⟨h.1, h.2.1, h.2.2.2⟩

/-- Claim C3 (confirmed): one dispatch of `changeStep t` produces exactly
the trace notify(STEP_NUMBER_CHANGE_EVENT, t), URL-write(t), commit(t) in
that order, commits the state with step number `t`, applies
`saveStepNumberToUrl t` to the window, and the committed state is read
back synchronously through the `getStepNumber` selector. -/
theorem c3_changeStep_spec (t : Nat) (s : StoreState) (w : Window) :
    dispatchChangeStep t s w =
      ([StoreEffect.notified "STEP_NUMBER_CHANGE_EVENT".toList t,
        StoreEffect.urlWritten t, StoreEffect.committed t],
       { stepNumber := t }, saveStepNumberToUrl t w) ∧
    getStepNumber (dispatchChangeStep t s w).2.1 = t := by
  constructor <;>
    simp [dispatchChangeStep, dispatch, changeStep, runControls, runControl, reducer,
      getStepNumber]

/-- Claim C6 (confirmed): for every `n ≥ 1`, on a window with a
well-formed location (no `'#'` before the fragment, fragment empty or
starting with `'#'`) and `pushState` available, writing the step number
and reading it back returns `n`: for `n > 1` the fragment becomes
`#step<n>`, which parses back to `n`, and for `n = 1` the fragment is
cleared and the absent fragment reads as 1. -/
theorem c6_stepNumberUrl_roundTrip (n : Nat) (w : Window) (h1 : 1 ≤ n)
    (hav : w.pushStateAvailable = true) (hb : '#' ∉ w.base)
    (hh : w.hash = [] ∨ ∃ t, w.hash = '#' :: t) :
    getStepNumberFromUrl (saveStepNumberToUrl n w) = some (n : Int) := by
  by_cases h2 : n > 1
  · -- the fragment becomes #step<n>
    by_cases hhash : w.hash = stepTag ++ natToDigitChars n
    · rw [show saveStepNumberToUrl n w = w by
        simp [saveStepNumberToUrl, hav, h2, hhash]]
      exact getStepNumberFromUrl_stepHash w n hhash
    · rcases hh with hnil | ⟨t, ht⟩
      · rw [show saveStepNumberToUrl n w =
            pushState (w.base ++ (stepTag ++ natToDigitChars n)) w by
          simp [saveStepNumberToUrl, hav, h2, hhash, hnil, Window.href, stepTag]]
        exact getStepNumberFromUrl_pushState_stepHash w w.base hb n
      · rw [show saveStepNumberToUrl n w =
            pushState (w.base ++ (stepTag ++ natToDigitChars n)) w by
          simp only [saveStepNumberToUrl, hav, Bool.true_eq_false, if_false, h2, if_pos,
            if_true, hhash, ite_false, ne_eq, ht, Window.href]
          rw [if_neg (by simp [ht] at hhash ⊢; exact hhash)]
          rw [if_pos (by simp)]
          rw [replaceFirst_fragment w.base t (stepTag ++ natToDigitChars n) hb]]
        exact getStepNumberFromUrl_pushState_stepHash w w.base hb n
  · -- n = 1: the fragment is cleared
    have hn : n = 1 := by omega
    subst hn
    rcases hh with hnil | ⟨t, ht⟩
    · rw [show saveStepNumberToUrl 1 w = w by simp [saveStepNumberToUrl, hav, hnil]]
      exact getStepNumberFromUrl_empty w hnil
    · rw [show saveStepNumberToUrl 1 w = pushState w.base w by
        simp only [saveStepNumberToUrl, hav, Bool.true_eq_false, if_false, gt_iff_lt,
          Nat.lt_irrefl, ite_false, ht, Window.href]
        rw [if_neg (by simp)]
        rw [if_pos (by simp)]
        rw [show replaceFirst ('#' :: t) [] (w.base ++ '#' :: t) = w.base ++ [] from
          replaceFirst_fragment w.base t [] hb]
        simp]
      exact getStepNumberFromUrl_empty _ (by
        show w.base.dropWhile (fun c => c ≠ '#') = []
        exact (takeDropWhile_no_fragment w.base hb).2)

/-- Witness for C6: writing step 2 on the example window reads back 2. -/
theorem c6_witness :
    getStepNumberFromUrl (saveStepNumberToUrl 2 exampleWindow) = some (2 : Int) :=
  c6_stepNumberUrl_roundTrip 2 exampleWindow (by decide) rfl (by decide) (Or.inl rfl)

/-- Claim C7, counterexample: a non-numbered step (prop `stepNumber` is
null) whose tracked completion flag is `false` (absent from the map) is
nevertheless shown complete, so its indicator is not the literal tracked
flag. -/
theorem c7_counterexample :
    ¬ (shouldShowStepCompleteIcon 1 none = lookupCompletion [] "B".toList) := by
  decide

/-- Claim C7 as amended: the complete indicator is computed independently
of the Completion Tracker for every step — a numbered step shows complete
exactly when its number is below the active step's number, and a
non-numbered step always shows complete. -/
theorem c7_shouldShowStepCompleteIcon_spec (activeStepNumber k : Nat) (hk : k ≠ 0) :
    shouldShowStepCompleteIcon activeStepNumber none = true ∧
    shouldShowStepCompleteIcon activeStepNumber (some k) = decide (activeStepNumber > k) := by
  constructor
  · rfl
  · simp [shouldShowStepCompleteIcon, hk]

/-- Witness for the amended C7 at active number 2 and step number 1. -/
theorem c7_witness :
    shouldShowStepCompleteIcon 2 none = true ∧
    shouldShowStepCompleteIcon 2 (some 1) = decide (2 > 1) :=
  c7_shouldShowStepCompleteIcon_spec 2 1 (by decide)

/-- Claim C5 (confirmed): on an annotated list the resolved next step is
the first step whose `stepIndex` is strictly greater than the active
step's `stepIndex` and whose `hasStepNumber` is true;
`isThereAnotherNumberedStep` is true exactly when such a step exists; and
on the example [A numbered, B non-numbered, C numbered] with active step
A the next step is C. -/
theorem c5_nextStep_spec (steps : List Step) (active : AnnotatedStep) :
    (nextStepOf (annotateSteps steps) active = (annotateSteps steps).find?
      (fun s => decide (active.stepIndex < s.stepIndex) && s.hasStepNumber)) ∧
    (isThereAnotherNumberedStep (annotateSteps steps) active = true ↔
      ∃ s ∈ annotateSteps steps, active.stepIndex < s.stepIndex ∧ s.hasStepNumber = true) ∧
    nextStepOf (annotateSteps stepsABC) activeA = some annotatedC ∧
    isThereAnotherNumberedStep (annotateSteps stepsABC) activeA = true := by
  have hfind : nextStepOf (annotateSteps steps) active = (annotateSteps steps).find?
      (fun s => decide (active.stepIndex < s.stepIndex) && s.hasStepNumber) := by
    unfold nextStepOf
    show ((List.enumFrom 0 (annotateSteps steps)).find? _).map _ = _
    exact enumFrom_find?_stepIndex (annotateSteps steps) 0
      (fun i => decide (active.stepIndex < i)) (fun s => s.hasStepNumber)
      (fun i a h => by simpa using annotateFrom_stepIndex 0 0 steps i a h)
  refine ⟨hfind, ?_, by decide, by decide⟩
  rw [isThereAnotherNumberedStep_eq_isSome _ _ hfind, List.find?_isSome]
  constructor
  · rintro ⟨s, hmem, hp⟩
    rcases Bool.and_eq_true_iff.mp hp with ⟨h1, h2⟩
    exact ⟨s, hmem, of_decide_eq_true h1, h2⟩
  · rintro ⟨s, hmem, h1, h2⟩
    exact ⟨s, hmem, Bool.and_eq_true_iff.mpr ⟨decide_eq_true h1, h2⟩⟩

/-- Claim C4 (confirmed): when the active step's completion check returns
a promise, the click immediately sets the form status to validating and
changes nothing else; when the promise settles with `true`, the
completion map records `true` for the step's id, the store's step number
becomes the next numbered step's number `k`, and the form status is back
to ready; when it settles with `false`, the map records `false`, the
store is untouched, and the form status is back to ready. -/
theorem c4_deferred_gate_spec (steps : List Step) (active nextS : AnnotatedStep) (k : Nat)
    (stepId : List Char) (st : PageState) (b : Bool)
    (hnext : nextStepOf (annotateSteps steps) active = some nextS)
    (hk : nextS.stepNumber = some k) :
    (onClick stepId k (CompletionResult.deferred b) st).formStatus = FormStatus.validating ∧
    (onClick stepId k (CompletionResult.deferred b) st).stepCompleteStatus =
      st.stepCompleteStatus ∧
    (onClick stepId k (CompletionResult.deferred b) st).store = st.store ∧
    lookupCompletion
      (settleDeferred stepId k true (onClick stepId k (CompletionResult.deferred b) st)
        ).stepCompleteStatus stepId = true ∧
    (settleDeferred stepId k true (onClick stepId k (CompletionResult.deferred b) st)
      ).store.stepNumber = k ∧
    (settleDeferred stepId k true (onClick stepId k (CompletionResult.deferred b) st)
      ).formStatus = FormStatus.ready ∧
    lookupCompletion
      (settleDeferred stepId k false (onClick stepId k (CompletionResult.deferred b) st)
        ).stepCompleteStatus stepId = false ∧
    (settleDeferred stepId k false (onClick stepId k (CompletionResult.deferred b) st)
      ).store = st.store ∧
    (settleDeferred stepId k false (onClick stepId k (CompletionResult.deferred b) st)
      ).formStatus = FormStatus.ready := by
  refine ⟨rfl, rfl, rfl, ?_, ?_, ?_, ?_, ?_, ?_⟩ <;>
    simp [settleDeferred, evaluateContinue, onClick, goToNextStep, dispatchChangeStep,
      dispatch, changeStep, runControls, runControl, reducer,
      lookupCompletion_setStepComplete]

/-- Witness for C4 on the example steps with active step A, next numbered
step C (number 2), and a ready page on step 1. -/
theorem c4_witness :
    (onClick "A".toList 2 (CompletionResult.deferred true) examplePage).formStatus =
      FormStatus.validating ∧
    lookupCompletion
      (settleDeferred "A".toList 2 true
        (onClick "A".toList 2 (CompletionResult.deferred true) examplePage)
        ).stepCompleteStatus "A".toList = true ∧
    (settleDeferred "A".toList 2 true
      (onClick "A".toList 2 (CompletionResult.deferred true) examplePage)
      ).store.stepNumber = 2 ∧
    (settleDeferred "A".toList 2 false
      (onClick "A".toList 2 (CompletionResult.deferred true) examplePage)
      ).store = examplePage.store :=
  have h := c4_deferred_gate_spec stepsABC activeA annotatedC 2 "A".toList examplePage true
    (by decide) (by decide)
  ⟨h.1, h.2.2.2.1, h.2.2.2.2.1, h.2.2.2.2.2.2.2.1⟩

/-- Claim C9 (confirmed): one coupon form submission emits exactly one
event — `a8c_checkout_add_coupon` carrying the coupon value, with
`submitCoupon` invoked on that value, when the value matches
`^[a-zA-Z0-9_-]+$`; otherwise `a8c_checkout_add_coupon_error`, with
`submitCoupon` not invoked. -/
theorem c9_handleFormSubmit_spec (value : List Char) (couponAddedProvided : Bool) :
    (handleFormSubmit value couponAddedProvided).events =
      [if isCouponValid value then CouponEvent.addCoupon value
       else CouponEvent.addCouponError "Invalid code".toList] ∧
    (handleFormSubmit value couponAddedProvided).submitCouponCalledWith =
      (if isCouponValid value then some value else none) ∧
    (isCouponValid value = true ↔ value ≠ [] ∧ ∀ c ∈ value, isCouponChar c = true) := by
  refine ⟨?_, ?_, ?_⟩
  · by_cases h : isCouponValid value <;> simp [handleFormSubmit, h]
  · by_cases h : isCouponValid value <;> simp [handleFormSubmit, h]
  · simp [isCouponValid, List.all_eq_true]

/-- Claim C8, counterexample: writing step 2 on a window with no current
fragment adds a new entry to the browsing history — `saveStepNumberToUrl`
navigates via `history.pushState`, which creates a history entry, not a
replace-style navigation. -/
theorem c8_counterexample :
    ¬ ((saveStepNumberToUrl 2 exampleWindow).history = exampleWindow.history) := by
  intro h
  rw [show saveStepNumberToUrl 2 exampleWindow =
      pushState (exampleWindow.base ++
        (stepTag ++ natToDigitChars 2)) exampleWindow by
    simp [saveStepNumberToUrl, exampleWindow, Window.href, stepTag]] at h
  have := congrArg List.length h
  simp [pushState] at this

/-- Claim C8 as amended: `saveStepNumberToUrl` writes the fragment through
`history.pushState`, so whenever it actually writes (pushState available
and the computed fragment differs from the current one) it adds exactly
one new entry to the browsing history; it never triggers a navigation or
reload (the embedding has no other effect), and it is a no-op when the
fragment is unchanged. -/
theorem c8_saveStepNumberToUrl_history (n : Nat) (w : Window)
    (hav : w.pushStateAvailable = true)
    (hch : w.hash ≠ (if n > 1 then stepTag ++ natToDigitChars n else [])) :
    ∃ u, (saveStepNumberToUrl n w).history = w.history ++ [u] := by
  refine ⟨if w.hash ≠ [] then
      replaceFirst w.hash (if n > 1 then stepTag ++ natToDigitChars n else []) w.href
    else w.href ++ (if n > 1 then stepTag ++ natToDigitChars n else []), ?_⟩
  simp only [saveStepNumberToUrl, hav, Bool.true_eq_false, if_false, ite_false]
  rw [if_neg hch]
  by_cases hne : w.hash ≠ [] <;> simp [hne, pushState]

/-- Witness for the amended C8 on the example window. -/
theorem c8_witness :
    ∃ u, (saveStepNumberToUrl 2 exampleWindow).history = exampleWindow.history ++ [u] :=
  c8_saveStepNumberToUrl_history 2 exampleWindow rfl (by simp [exampleWindow, stepTag])

/-- Claim C10 (confirmed): with `pushState` unavailable,
`saveStepNumberToUrl` is a silent no-op — the whole window state,
fragment and history included, is returned unchanged. -/
theorem c10_saveStepNumberToUrl_noop (n : Nat) (w : Window)
    (h : w.pushStateAvailable = false) : saveStepNumberToUrl n w = w := by
  simp [saveStepNumberToUrl, h]

/-- Witness for C10 on a concrete window without `pushState`. -/
theorem c10_witness : saveStepNumberToUrl 7 noPushStateWindow = noPushStateWindow :=
  c10_saveStepNumberToUrl_noop 7 noPushStateWindow rfl

end CheckoutModel
